import Mathlib

/-!
Verification of the request-handling control layer of the
Go-Microservice-Template repository: JWT authentication middleware,
fixed-window rate limiting, the Redis cache-aside layer, listing
pagination and user registration.  Go machine integers are modelled by
`Int`, timestamps by integer seconds, UUIDs by their string form.
-/

namespace GoMicroservice

/-! ### Domain model (internal/model/user.go) -/

/-- The domain user entity (struct `User` of internal/model/user.go). -/
structure User where
  ID : String
  Email : String
  Name : String
  Password : String
  Role : String
  Active : Bool
  CreatedAt : Int
  UpdatedAt : Int
deriving DecidableEq

/-- Role constant "user" (internal/model/user.go). -/
def RoleUser : String := "user"

/-- Role constant "admin" (internal/model/user.go). -/
def RoleAdmin : String := "admin"

/-- The JSON object produced by encoding/json for a `User`: every
field of the struct except `Password`, whose tag is the JSON ignore
marker, so it is never serialized. -/
structure UserJSON where
  id : String
  email : String
  name : String
  role : String
  active : Bool
  createdAt : Int
  updatedAt : Int
deriving DecidableEq

/-- json.Marshal on a `User`: total (a User contains only
JSON-encodable fields), and it omits the `Password` field. -/
def marshalUser (u : User) : UserJSON :=
  ⟨u.ID, u.Email, u.Name, u.Role, u.Active, u.CreatedAt, u.UpdatedAt⟩

/-- A value stored in the remote cache: either bytes that are a valid
JSON encoding of a user object, or bytes on which json.Unmarshal into
`User` fails. -/
inductive CacheData where
  | userBytes (j : UserJSON)
  | garbage (s : String)
deriving DecidableEq

/-- json.Unmarshal of cached bytes into a `User`.  A field absent from
the JSON object (here `Password`, tagged with the ignore marker) is
left at its zero value, the empty string. -/
def unmarshalUser : CacheData → Option User
  | .userBytes j => some ⟨j.id, j.email, j.name, "", j.role, j.active, j.createdAt, j.updatedAt⟩
  | .garbage _ => none

/-! ### Association-list maps

Go maps and the remote cache's key space are modelled as association
lists with the usual lookup/insert/remove operations. -/

/-- Map insertion/overwrite, the semantics of a Go map assignment or a
key/value store SET. -/
def setEntry {β : Type} : List (String × β) → String → β → List (String × β)
  | [], k, v => [(k, v)]
  | (k', v') :: rest, k, v =>
    if k' = k then (k', v) :: rest else (k', v') :: setEntry rest k v

/-- Map removal, the semantics of a Go map delete or a key/value store
DEL. -/
def removeEntry {β : Type} (l : List (String × β)) (k : String) : List (String × β) :=
  l.filter (fun kv => !(kv.1 == k))

theorem lookup_setEntry_self {β : Type} (l : List (String × β)) (k : String) (v : β) :
    (setEntry l k v).lookup k = some v := by
  induction l with
  | nil => simp [setEntry, List.lookup]
  | cons hd tl ih =>
    by_cases h : hd.1 = k
    · simp [setEntry, h, List.lookup]
    · simp only [setEntry]
      rw [if_neg h]
      simp only [List.lookup]
      have : (k == hd.1) = false := by
        simp [beq_iff_eq]
        exact fun hk => h hk.symm
      simp [this, ih]

theorem lookup_removeEntry_self {β : Type} (l : List (String × β)) (k : String) :
    (removeEntry l k).lookup k = none := by
  induction l with
  | nil => simp [removeEntry, List.lookup]
  | cons hd tl ih =>
    by_cases h : hd.1 = k
    · simp [removeEntry, List.filter, h, ih]
      simpa [removeEntry] using ih
    · have hb : (hd.1 == k) = false := by simp [beq_iff_eq, h]
      have hb' : (k == hd.1) = false := by
        simp [beq_iff_eq]
        exact fun hk => h hk.symm
      simp only [removeEntry, List.filter, hb, Bool.not_false, List.lookup, hb']
      simpa [removeEntry] using ih

/-! ### Remote cache collaborator

Modelled from the spec: the remote cache (§6) offers
`Get(key)→bytes|absent`, `Set(key, bytes, ttl)` and `Delete(key)` over
a network, any of which may fail; the model carries per-operation
failure-injection flags so that availability behaviour can be stated. -/

/-- Modelled from the spec: state of the remote key/value cache (the
Redis client), with failure injection per operation. -/
structure Backend where
  store : List (String × CacheData)
  failGet : Bool
  failSet : Bool
  failDel : Bool
deriving DecidableEq

/-- Modelled from the spec: remote cache GET — bytes, absent, or a
transport failure. -/
def Backend.get (b : Backend) (k : String) : Except Unit (Option CacheData) :=
  if b.failGet then .error () else .ok (b.store.lookup k)

/-- Modelled from the spec: remote cache SET (the TTL only bounds the
entry's lifetime and plays no role in the stated claims). -/
def Backend.set (b : Backend) (k : String) (d : CacheData) : Except Unit Backend :=
  if b.failSet then .error () else .ok { b with store := setEntry b.store k d }

/-- Modelled from the spec: remote cache DEL. -/
def Backend.del (b : Backend) (k : String) : Except Unit Backend :=
  if b.failDel then .error () else .ok { b with store := removeEntry b.store k }

/-! ### Cache-aside layer (internal/repository/cache.go) -/

/-- State of `redisUserCache`: the client pointer (which is nil when
Redis was unreachable at startup) and its backend state; `ttl` is the
configured entry lifetime. -/
structure UserCacheState where
  hasClient : Bool
  backend : Backend
  ttl : Int
deriving DecidableEq

/-- Key scheme of `redisUserCache.key`: "user:" + id. -/
def cacheKey (id : String) : String := "user:" ++ id

/-- `redisUserCache.Delete`: nil client and DEL failures both yield a
nil error (the failure is only logged). -/
def cacheDelete (c : UserCacheState) (id : String) : UserCacheState × Option Unit :=
  if c.hasClient = false then (c, none)
  else
    match c.backend.del (cacheKey id) with
    | .error _ => (c, none)
    | .ok b => ({ c with backend := b }, none)

/-- `redisUserCache.Get`: nil client or a failing GET returns an error;
an absent key is a miss (nil, nil); bytes that fail to unmarshal are
deleted (ignoring the delete's outcome) and reported as a miss; a
well-formed hit returns the decoded user. -/
def cacheGet (c : UserCacheState) (id : String) : UserCacheState × Except Unit (Option User) :=
  if c.hasClient = false then (c, .error ())
  else
    match c.backend.get (cacheKey id) with
    | .error _ => (c, .error ())
    | .ok none => (c, .ok none)
    | .ok (some d) =>
      match unmarshalUser d with
      | some u => (c, .ok (some u))
      | none => ((cacheDelete c id).1, .ok none)

/-- `redisUserCache.Set`: nil client returns nil; marshalling a `User`
never fails; a failing SET is logged and nil is returned; success
returns nil. -/
def cacheSet (c : UserCacheState) (u : User) : UserCacheState × Option Unit :=
  if c.hasClient = false then (c, none)
  else
    match c.backend.set (cacheKey u.ID) (CacheData.userBytes (marshalUser u)) with
    | .error _ => (c, none)
    | .ok b => ({ c with backend := b }, none)

/-! ### Listing pagination (internal/service/user_service.go, List) -/

/-- Total-page computation of `userService.List`: Go integer division
(truncated) of `total` by `PageSize`, plus one when the remainder is
positive.  `Int.tdiv`/`Int.tmod` are the truncated operations matching
Go's `/` and `%`. -/
def listTotalPages (total pageSize : Int) : Int :=
  let tp := Int.tdiv total pageSize
  if Int.tmod total pageSize > 0 then tp + 1 else tp

/-! ### Registration (internal/service/user_service.go, Register) -/

/-- The DTO for user creation (internal/model/user.go). -/
structure CreateUserRequest where
  Email : String
  Name : String
  Password : String
deriving DecidableEq

/-- Outcome classification for `Register`. -/
inductive RegisterErr where
  | duplicate
  | hashFailed
  | createFailed
deriving DecidableEq

/-- `postgresUserRepo.Create` (internal/repository, postgres file):
assigns a fresh UUID and the current UTC time to the user's ID and
timestamps, then INSERTs; the insert may fail (duplicate key or other
database error), abstracted as the `insertOk` flag. -/
def repoCreate (freshId : String) (now : Int) (insertOk : Bool) (u : User) :
    Except RegisterErr User :=
  let u' := { u with ID := freshId, CreatedAt := now, UpdatedAt := now }
  if insertOk then .ok u' else .error .createFailed

/-- `userService.Register`: reject when `GetByEmail` finds an existing
user; hash the password (bcrypt, abstracted as the oracle `hash`,
which may fail); build the user with `Role = RoleUser` and
`Active = true`; `repo.Create`; warm the cache (a cache error is only
logged); return the created user.  `getByEmail` abstracts the durable
repository's email index. -/
def register (getByEmail : String → Option User) (hash : String → Option String)
    (freshId : String) (now : Int) (insertOk : Bool)
    (cache : UserCacheState) (req : CreateUserRequest) :
    Except RegisterErr (User × UserCacheState) :=
  match getByEmail req.Email with
  | some _ => .error .duplicate
  | none =>
    match hash req.Password with
    | none => .error .hashFailed
    | some hp =>
      let user : User :=
        { ID := "", Email := req.Email, Name := req.Name, Password := hp,
          Role := RoleUser, Active := true, CreatedAt := 0, UpdatedAt := 0 }
      match repoCreate freshId now insertOk user with
      | .error e => .error e
      | .ok created => .ok (created, (cacheSet cache created).1)

/-! ### Helper lemmas about the cache-aside layer -/

theorem cacheSet_snd (c : UserCacheState) (u : User) : (cacheSet c u).2 = none := by
  unfold cacheSet
  split
  · rfl
  · split <;> rfl

theorem cacheDelete_snd (c : UserCacheState) (id : String) : (cacheDelete c id).2 = none := by
  unfold cacheDelete
  split
  · rfl
  · split <;> rfl

/-- The cache-entry invariant of the data model: every well-formed
entry stored under "user:" + id deserializes to a user object whose id
field is that id. -/
def KeyInvariant (b : Backend) : Prop :=
  ∀ id j, b.store.lookup (cacheKey id) = some (CacheData.userBytes j) → j.id = id

theorem append_left_cancel_str (a b c : String) (h : a ++ b = a ++ c) : b = c := by
  have hd : (a ++ b).data = (a ++ c).data := congrArg String.data h
  simp only [String.data_append] at hd
  exact String.ext (List.append_cancel_left hd)

/-! ### Claim theorems: cache-aside layer -/

/-- C4 counterexample: with the cache erroring on every call, `Get`
returns the failure to its caller instead of absorbing it inside the
cache-aside layer. -/
theorem cacheGet_surfaces_failure_cex :
    (cacheGet ⟨true, ⟨[], true, true, true⟩, 300⟩ "a").2 = Except.error () := by
  rfl

/-- C4 (amended): with the cache erroring on every call, `Set` and
`Delete` still report success (the failure is absorbed and only
logged), while `Get` returns the cache failure to its caller. -/
theorem cache_failure_absorption (c : UserCacheState) (u : User) (id : String)
    (hg : c.backend.failGet = true) (hs : c.backend.failSet = true)
    (hd : c.backend.failDel = true) :
    (cacheSet c u).2 = none ∧ (cacheDelete c id).2 = none ∧
      (cacheGet c id).2 = Except.error () := by
  refine ⟨cacheSet_snd c u, cacheDelete_snd c id, ?_⟩
  unfold cacheGet
  split
  · rfl
  · simp [Backend.get, hg]

/-- C4 witness: the amended statement evaluated on an always-failing
backend. -/
theorem cache_failure_absorption_witness :
    (⟨true, ⟨[], true, true, true⟩, 300⟩ : UserCacheState).backend.failGet = true ∧
    ((cacheSet ⟨true, ⟨[], true, true, true⟩, 300⟩ ⟨"a", "e", "n", "p", RoleUser, true, 0, 0⟩).2 = none ∧
      (cacheDelete ⟨true, ⟨[], true, true, true⟩, 300⟩ "a").2 = none ∧
      (cacheGet ⟨true, ⟨[], true, true, true⟩, 300⟩ "a").2 = Except.error ()) :=
  ⟨rfl, cache_failure_absorption _ _ _ rfl rfl rfl⟩

/-- C5 counterexample: `Get` performs no check that the deserialized
user's id matches the key, so a well-formed entry planted under the
wrong key is served with a mismatched ID. -/
theorem cacheGet_id_mismatch_cex :
    (cacheGet
        ⟨true, ⟨[("user:a", CacheData.userBytes ⟨"b", "e", "n", "user", true, 0, 0⟩)],
          false, false, false⟩, 300⟩ "a").2
      = Except.ok (some ⟨"b", "e", "n", "", "user", true, 0, 0⟩) ∧ "b" ≠ "a" := by
  exact ⟨rfl, by decide⟩

/-- C5 (amended): provided the backend satisfies the key invariant
(which the writers maintain: `Set` stores a user under its own id),
every present result of `Get(id)` has ID equal to the requested id;
the code itself performs no such check. -/
theorem cacheGet_id_matches_under_invariant (c : UserCacheState) (id : String) (u : User)
    (hinv : KeyInvariant c.backend)
    (hget : (cacheGet c id).2 = Except.ok (some u)) : u.ID = id := by
  unfold cacheGet at hget
  split at hget
  · simp at hget
  · cases hb : c.backend.get (cacheKey id) with
    | error e => rw [hb] at hget; simp at hget
    | ok od =>
      rw [hb] at hget
      cases od with
      | none => simp at hget
      | some d =>
        cases d with
        | garbage s => simp [unmarshalUser] at hget
        | userBytes j =>
          simp only [unmarshalUser, Except.ok.injEq, Option.some.injEq] at hget
          have hstore : c.backend.store.lookup (cacheKey id) = some (CacheData.userBytes j) := by
            unfold Backend.get at hb
            split at hb
            · simp at hb
            · exact Except.ok.inj hb
          have hid := hinv id j hstore
          rw [← hget]
          simpa using hid

/-- A one-entry backend whose single entry satisfies the key
invariant. -/
def sampleInvBackend : Backend :=
  ⟨[("user:a", CacheData.userBytes ⟨"a", "e", "n", "user", true, 0, 0⟩)], false, false, false⟩

theorem sampleInvBackend_inv : KeyInvariant sampleInvBackend := by
  intro id j h
  by_cases hc : cacheKey id = "user:a"
  · have hid : id = "a" := by
      have h2 : "user:" ++ id = "user:" ++ "a" := by
        have hk : ("user:" ++ "a" : String) = "user:a" := by decide
        rw [hk]
        simpa [cacheKey] using hc
      exact append_left_cancel_str _ _ _ h2
    subst hid
    rw [hc] at h
    simp only [sampleInvBackend, List.lookup] at h
    rw [show (("user:a" : String) == "user:a") = true from by decide] at h
    simp only [Option.some.injEq, CacheData.userBytes.injEq] at h
    rw [← h]
  · have hb : (cacheKey id == "user:a") = false := beq_eq_false_iff_ne.mpr hc
    simp only [sampleInvBackend, List.lookup, hb] at h
    exact Option.noConfusion h

/-- C5 witness: on a backend satisfying the key invariant, the hit
returned for id "a" has ID "a". -/
theorem cacheGet_id_matches_witness :
    KeyInvariant sampleInvBackend ∧
    (⟨"a", "e", "n", "", "user", true, 0, 0⟩ : User).ID = "a" :=
  ⟨sampleInvBackend_inv,
    cacheGet_id_matches_under_invariant ⟨true, sampleInvBackend, 300⟩ "a" _
      sampleInvBackend_inv rfl⟩

/-- C6: reading an id whose cache entry holds unparseable bytes
deletes the entry and reports a miss, not an error, so the corrupted
entry is never served again (stated for a reachable cache, so the
delete actually lands). -/
theorem cacheGet_selfheals_corrupted (c : UserCacheState) (id s : String)
    (hc : c.hasClient = true) (hg : c.backend.failGet = false)
    (hd : c.backend.failDel = false)
    (hstore : c.backend.store.lookup (cacheKey id) = some (CacheData.garbage s)) :
    (cacheGet c id).2 = Except.ok none ∧
    ((cacheGet c id).1).backend.store.lookup (cacheKey id) = none := by
  constructor
  · simp [cacheGet, hc, Backend.get, hg, hstore, unmarshalUser]
  · simp [cacheGet, hc, Backend.get, hg, hstore, unmarshalUser, cacheDelete, Backend.del, hd,
      lookup_removeEntry_self]

/-- C6 witness: the self-healing read evaluated on a concrete
corrupted entry. -/
theorem cacheGet_selfheals_corrupted_witness :
    ((⟨true, ⟨[("user:a", CacheData.garbage "junk")], false, false, false⟩, 300⟩ :
        UserCacheState).backend.store.lookup (cacheKey "a")
      = some (CacheData.garbage "junk")) ∧
    ((cacheGet ⟨true, ⟨[("user:a", CacheData.garbage "junk")], false, false, false⟩, 300⟩ "a").2
        = Except.ok none ∧
      ((cacheGet ⟨true, ⟨[("user:a", CacheData.garbage "junk")], false, false, false⟩, 300⟩
          "a").1).backend.store.lookup (cacheKey "a") = none) := by
  refine ⟨?_, cacheGet_selfheals_corrupted _ "a" "junk" rfl rfl rfl ?_⟩ <;> decide

/-- C7 counterexample: the cache round trip does not return a user
equal to the written one in every field — the Password field is tagged
with the JSON ignore marker, is never serialized, and comes back
empty. -/
theorem cache_roundtrip_password_cex :
    (cacheGet (cacheSet ⟨true, ⟨[], false, false, false⟩, 300⟩
        ⟨"a", "e", "n", "secret", "user", true, 0, 0⟩).1 "a").2
      = Except.ok (some ⟨"a", "e", "n", "", "user", true, 0, 0⟩) ∧
    (⟨"a", "e", "n", "", "user", true, 0, 0⟩ : User)
      ≠ ⟨"a", "e", "n", "secret", "user", true, 0, 0⟩ := by
  exact ⟨rfl, by decide⟩

/-- C7 (amended): after `Set(u)` succeeds against a reachable cache,
`Get(u.ID)` on the hit path returns exactly the stored bytes decoded:
a user equal to `u` in every field except `Password`, which is never
serialized and comes back as the empty string; the cache-aside layer
consults no durable repository (it has none). -/
theorem cache_roundtrip_hit (c : UserCacheState) (u : User)
    (hc : c.hasClient = true) (hs : c.backend.failSet = false)
    (hg : c.backend.failGet = false) :
    (cacheGet (cacheSet c u).1 u.ID).2
      = Except.ok (some { u with Password := "" }) := by
  simp [cacheSet, hc, Backend.set, hs, cacheGet, Backend.get, hg, lookup_setEntry_self,
    marshalUser, unmarshalUser]

/-- C7 witness: the amended round trip evaluated on a concrete user
with a non-empty password. -/
theorem cache_roundtrip_hit_witness :
    (⟨true, ⟨[], false, false, false⟩, 300⟩ : UserCacheState).hasClient = true ∧
    (cacheGet (cacheSet ⟨true, ⟨[], false, false, false⟩, 300⟩
        ⟨"a", "e", "n", "pw", "user", true, 0, 0⟩).1 "a").2
      = Except.ok (some ⟨"a", "e", "n", "", "user", true, 0, 0⟩) :=
  ⟨rfl, cache_roundtrip_hit ⟨true, ⟨[], false, false, false⟩, 300⟩
    ⟨"a", "e", "n", "pw", "user", true, 0, 0⟩ rfl rfl rfl⟩

/-- C8: for total ≥ 0 and pageSize in the validated range, `List`'s
total-page computation equals the ceiling of total / pageSize. -/
theorem listTotalPages_is_ceil (total pageSize : Int)
    (ht : 0 ≤ total) (hp1 : 1 ≤ pageSize) (hp2 : pageSize ≤ 100) :
    listTotalPages total pageSize = ⌈(total : ℚ) / (pageSize : ℚ)⌉ := by
  have hp0 : (0 : Int) < pageSize := by omega
  have hq0 : (0 : ℚ) < (pageSize : ℚ) := by exact_mod_cast hp0
  have htd : Int.tdiv total pageSize = total / pageSize := Int.tdiv_eq_ediv ht (by omega)
  have htm : Int.tmod total pageSize = total % pageSize := Int.tmod_eq_emod ht (by omega)
  have hdm : pageSize * (total / pageSize) + total % pageSize = total :=
    Int.ediv_add_emod total pageSize
  have hr0 : 0 ≤ total % pageSize := Int.emod_nonneg total (by omega)
  have hrlt : total % pageSize < pageSize := Int.emod_lt_of_pos total hp0
  unfold listTotalPages
  rw [htd, htm]
  show (if total % pageSize > 0 then total / pageSize + 1 else total / pageSize)
      = ⌈(total : ℚ) / (pageSize : ℚ)⌉
  by_cases h : total % pageSize > 0
  · rw [if_pos h]
    symm
    rw [Int.ceil_eq_iff]
    have hlow : total / pageSize * pageSize < total := by
      rw [mul_comm]; linarith
    have hup : total ≤ (total / pageSize + 1) * pageSize := by
      have : (total / pageSize + 1) * pageSize = pageSize * (total / pageSize) + pageSize := by
        ring
      rw [this]; linarith
    constructor
    · have hcast : ((total / pageSize + 1 : Int) : ℚ) - 1 = ((total / pageSize : Int) : ℚ) := by
        push_cast; ring
      rw [hcast, lt_div_iff₀ hq0]
      exact_mod_cast hlow
    · rw [div_le_iff₀ hq0]
      exact_mod_cast hup
  · rw [if_neg h]
    have hr : total % pageSize = 0 := by omega
    have heq : total = total / pageSize * pageSize := by
      rw [mul_comm]; linarith [hdm, hr]
    have hx : (total : ℚ) / (pageSize : ℚ) = ((total / pageSize : Int) : ℚ) := by
      rw [div_eq_iff (ne_of_gt hq0)]
      exact_mod_cast heq
    rw [hx, Int.ceil_intCast]

/-- C8 witness: 45 items at page size 20 give 3 pages, which is the
ceiling of 45 / 20. -/
theorem listTotalPages_is_ceil_witness :
    (0 : Int) ≤ 45 ∧ (1 : Int) ≤ 20 ∧ (20 : Int) ≤ 100 ∧
    listTotalPages 45 20 = ⌈(45 : ℚ) / (20 : ℚ)⌉ ∧ listTotalPages 45 20 = 3 :=
  ⟨by norm_num, by norm_num, by norm_num,
    listTotalPages_is_ceil 45 20 (by norm_num) (by norm_num) (by norm_num), by decide⟩

/-- C10: whatever the request contains, a user created by `Register`
has role "user" and is active; no input can create an admin or an
inactive account. -/
theorem register_role_active (getByEmail : String → Option User)
    (hash : String → Option String) (freshId : String) (now : Int) (insertOk : Bool)
    (cache : UserCacheState) (req : CreateUserRequest) (u : User) (st : UserCacheState)
    (h : register getByEmail hash freshId now insertOk cache req = Except.ok (u, st)) :
    u.Role = RoleUser ∧ u.Active = true := by
  unfold register at h
  split at h
  · exact Except.noConfusion h
  · split at h
    · exact Except.noConfusion h
    · unfold repoCreate at h
      split at h
      · simp only [Except.ok.injEq, Prod.mk.injEq] at h
        obtain ⟨hu, -⟩ := h
        rw [← hu]
        exact ⟨rfl, rfl⟩
      · exact Except.noConfusion h

/-- C10 witness: a concrete successful registration yields role "user"
and an active account. -/
theorem register_role_active_witness :
    (⟨"id1", "e@x", "Nm", "hp", RoleUser, true, 7, 7⟩ : User).Role = RoleUser ∧
    (⟨"id1", "e@x", "Nm", "hp", RoleUser, true, 7, 7⟩ : User).Active = true :=
  register_role_active (fun _ => none) (fun _ => some "hp") "id1" 7 true
    ⟨true, ⟨[], false, false, false⟩, 300⟩ ⟨"e@x", "Nm", "password1"⟩
    ⟨"id1", "e@x", "Nm", "hp", RoleUser, true, 7, 7⟩
    (cacheSet ⟨true, ⟨[], false, false, false⟩, 300⟩
      ⟨"id1", "e@x", "Nm", "hp", RoleUser, true, 7, 7⟩).1
    (by rfl)

/-! ### JWT authentication middleware (internal/middleware/middleware.go) -/

/-- strings.SplitN(s, " ", 2): split at the first space only, keeping
the remainder (spaces included) as the second element. -/
def splitN2 (s : String) : List String :=
  match s.splitOn " " with
  | [] => [s]
  | [x] => [x]
  | x :: rest => [x, String.intercalate " " rest]

/-- Modelled from the spec: a parsed bearer token as the symmetric
verification primitive (§4.2, §6) sees it — the algorithm family it
declares, the secret its signature verifies against, its expiry,
whether its claims decode into the expected shape, and the embedded
subject and role. -/
structure JWTToken where
  algIsHMAC : Bool
  signedWith : String
  exp : Int
  claimsDecode : Bool
  sub : String
  role : String
deriving DecidableEq

/-- Outcome of `JWTAuthMiddleware` on one request: one constructor per
401 branch, and `authorized` carrying the subject and role injected
into the request context. -/
inductive AuthOutcome where
  | headerRequired
  | badFormat
  | invalidOrExpired
  | badClaims
  | authorized (sub role : String)
deriving DecidableEq

/-- `JWTAuthMiddleware`: empty Authorization header is rejected; the
header must split into exactly two parts with a case-insensitive
"bearer" scheme; jwt.Parse fails on an unparseable token, a
non-HMAC algorithm (the keyfunc returns an error), a signature that
does not verify against the configured secret, or an expired token;
claims must decode; on success the claims' subject and role are
published into the request context.  `tokens` maps each credential
string to the token it parses to (`none`: not a well-formed JWT). -/
def jwtAuthMiddleware (tokens : String → Option JWTToken) (secret : String) (now : Int)
    (authHeader : String) : AuthOutcome :=
  if authHeader = "" then .headerRequired
  else
    match splitN2 authHeader with
    | [scheme, tok] =>
      if scheme.toLower ≠ "bearer" then .badFormat
      else
        match tokens tok with
        | none => .invalidOrExpired
        | some t =>
          if t.algIsHMAC = false then .invalidOrExpired
          else if t.signedWith ≠ secret then .invalidOrExpired
          else if t.exp < now then .invalidOrExpired
          else if t.claimsDecode = false then .badClaims
          else .authorized t.sub t.role
    | _ => .badFormat

/-- C1: validation succeeds exactly when the credential is present and
formatted as scheme-space-token with a case-insensitive "bearer"
scheme, the token parses, declares an HMAC algorithm, verifies against
the configured secret, is unexpired and its claims decode; the absence
of any one condition is a rejection, and on success the published
subject and role are the ones embedded in the token. -/
theorem jwtAuth_validates_iff (tokens : String → Option JWTToken) (secret : String)
    (now : Int) (authHeader : String) (sub role : String) :
    jwtAuthMiddleware tokens secret now authHeader = .authorized sub role ↔
      authHeader ≠ "" ∧
      ∃ scheme tok t, splitN2 authHeader = [scheme, tok] ∧
        scheme.toLower = "bearer" ∧ tokens tok = some t ∧
        t.algIsHMAC = true ∧ t.signedWith = secret ∧ now ≤ t.exp ∧
        t.claimsDecode = true ∧ sub = t.sub ∧ role = t.role := by
  constructor
  · intro h
    unfold jwtAuthMiddleware at h
    split at h
    · exact AuthOutcome.noConfusion h
    · rename_i hne
      split at h
      · rename_i scheme tok heq
        split at h
        · exact AuthOutcome.noConfusion h
        · rename_i hbear
          split at h
          · exact AuthOutcome.noConfusion h
          · rename_i t htok
            split at h
            · exact AuthOutcome.noConfusion h
            · split at h
              · exact AuthOutcome.noConfusion h
              · split at h
                · exact AuthOutcome.noConfusion h
                · split at h
                  · exact AuthOutcome.noConfusion h
                  · rename_i halg hsig hexp hcl
                    obtain ⟨hsub, hrole⟩ := AuthOutcome.authorized.inj h
                    refine ⟨hne, scheme, tok, t, heq, not_not.mp hbear, htok,
                      ?_, not_not.mp hsig, ?_, ?_, hsub.symm, hrole.symm⟩
                    · cases hA : t.algIsHMAC with
                      | false => exact absurd hA halg
                      | true => rfl
                    · exact not_lt.mp hexp
                    · cases hC : t.claimsDecode with
                      | false => exact absurd hC hcl
                      | true => rfl
      · rename_i hother
        exact AuthOutcome.noConfusion h
  · rintro ⟨hne, scheme, tok, t, hsplit, hlow, htok, halg, hsig, hexp, hcl, hsub, hrole⟩
    have hnexp : ¬ (t.exp < now) := not_lt.mpr hexp
    subst hsub hrole hsig
    simp [jwtAuthMiddleware, hne, hsplit, hlow, htok, halg, hnexp, hcl]

/-! ### Rate limiting middleware (internal/middleware/middleware.go) -/

/-- Per-client window state: the `client` struct of
`RateLimitMiddleware` (`count`, `resetAt`). -/
structure Client where
  count : Int
  resetAt : Int
deriving DecidableEq

/-- The shared per-client window map (`clients`). -/
abbrev RLState := List (String × Client)

/-- Outcome of one admission check: pass the request on, or reject it
with a Retry-After value in seconds. -/
inductive RLResult where
  | allowed
  | limited (retryAfter : Int)
deriving DecidableEq

/-- One admission check of `RateLimitMiddleware` for client `ip` at
instant `now`: when the client has no window or `now` is strictly
after `resetAt` (Go's `now.After`), a fresh window
{count 1, resetAt now + window} is installed and the request passes;
otherwise the count is incremented (also on rejection), and the
request is rejected with Retry-After `resetAt - now` seconds exactly
when the incremented count exceeds `maxRequests`. -/
def allow (maxRequests window : Int) (st : RLState) (ip : String) (now : Int) :
    RLState × RLResult :=
  match st.lookup ip with
  | none => (setEntry st ip ⟨1, now + window⟩, .allowed)
  | some c =>
    if c.resetAt < now then
      (setEntry st ip ⟨1, now + window⟩, .allowed)
    else if c.count + 1 > maxRequests then
      (setEntry st ip ⟨c.count + 1, c.resetAt⟩, .limited (c.resetAt - now))
    else
      (setEntry st ip ⟨c.count + 1, c.resetAt⟩, .allowed)

/-- Folding `allow` over the instants of successive requests from one
client. -/
def allowRun (maxRequests window : Int) (st : RLState) (ip : String) :
    List Int → RLState × List RLResult
  | [] => (st, [])
  | t :: ts =>
    let p := allow maxRequests window st ip t
    let q := allowRun maxRequests window p.1 ip ts
    (q.1, p.2 :: q.2)

theorem allowRun_nil (maxRequests window : Int) (st : RLState) (ip : String) :
    allowRun maxRequests window st ip [] = (st, []) := rfl

theorem allowRun_cons (maxRequests window : Int) (st : RLState) (ip : String)
    (t : Int) (ts : List Int) :
    allowRun maxRequests window st ip (t :: ts)
      = ((allowRun maxRequests window (allow maxRequests window st ip t).1 ip ts).1,
         (allow maxRequests window st ip t).2
           :: (allowRun maxRequests window (allow maxRequests window st ip t).1 ip ts).2) := rfl

/-- Body of the eviction sweep: drop every client whose reset time has
passed (`now.After(c.resetAt)`). -/
def evictExpired (st : RLState) (now : Int) : RLState :=
  st.filter (fun kv => !(decide (kv.2.resetAt < now)))

/-- The sweep goroutine's loop condition.  The source reads
`go func() { for { time.Sleep(time.Minute); ... } }()`: the loop has
no condition (constantly true), no stop channel, no context and no
ticker to stop, so the state visible to the loop carries no shutdown
signal at all. -/
def sweepLoopCondition (_ : RLState) : Bool := true

/-- C9: in every state the eviction sweep's loop condition is true —
the background loop has no exit path and no cancellation input, so it
cannot be stopped on service shutdown; it is exactly the fire-and-
forget leaked task the spec's design notes describe as a defect. -/
theorem sweepLoopCondition_always_true (st : RLState) : sweepLoopCondition st = true := rfl

/-- C3 counterexample: at the exact boundary now = windowResetAt the
code does not open a fresh window — Go's `now.After(resetAt)` is
strict — so a full window rejects a request arriving exactly at its
reset instant, where the claim (now ≥ windowResetAt) requires
admission on a fresh window. -/
theorem rateLimit_reset_boundary_cex :
    (allow 1 10 [("a", ⟨1, 5⟩)] "a" 5).2 = RLResult.limited 0 ∧
    (allow 1 10 [("a", ⟨1, 5⟩)] "a" 5).2 ≠ RLResult.allowed := by
  exact ⟨rfl, by decide⟩

/-- C3 (amended): on an admission check, if the client's window is
absent or `now` is strictly after `windowResetAt`, the window is
created/replaced with {count 1, windowResetAt now + W} and the request
is admitted; in particular, once the reset instant has passed, the
next request from a previously throttled client is admitted on a
fresh window with count 1. -/
theorem rateLimit_fresh_window (maxRequests window : Int) (st : RLState) (ip : String)
    (now : Int)
    (h : st.lookup ip = none ∨ ∃ c, st.lookup ip = some c ∧ c.resetAt < now) :
    allow maxRequests window st ip now = (setEntry st ip ⟨1, now + window⟩, .allowed) := by
  rcases h with h | ⟨c, hc, hlt⟩
  · simp [allow, h]
  · simp [allow, hc, hlt]

/-- C3 witness: a client throttled at count 3 over limit 2 is admitted
again on a fresh count-1 window once the reset instant has passed. -/
theorem rateLimit_fresh_window_witness :
    (([("a", (⟨3, 5⟩ : Client))] : RLState).lookup "a" = none ∨
      ∃ c, ([("a", (⟨3, 5⟩ : Client))] : RLState).lookup "a" = some c ∧ c.resetAt < 6) ∧
    allow 2 10 [("a", ⟨3, 5⟩)] "a" 6
      = (setEntry [("a", ⟨3, 5⟩)] "a" ⟨1, 16⟩, RLResult.allowed) :=
  ⟨Or.inr ⟨⟨3, 5⟩, rfl, by decide⟩,
    rateLimit_fresh_window 2 10 [("a", ⟨3, 5⟩)] "a" 6 (Or.inr ⟨⟨3, 5⟩, rfl, by decide⟩)⟩

/-- Expected admission results for a client whose window (reset
instant `R`) already holds `c0` counted requests: the k-th further
request is rejected with Retry-After `R - t` exactly when the count
after increment, `c0 + k + 1`, exceeds the limit. -/
def expectedResults (maxRequests R c0 : Int) : List Int → List RLResult
  | [] => []
  | t :: ts =>
    (if c0 + 1 > maxRequests then RLResult.limited (R - t) else RLResult.allowed)
      :: expectedResults maxRequests R (c0 + 1) ts

theorem allowRun_inwindow (maxRequests window : Int) (ip : String) (R : Int) :
    ∀ (ts : List Int) (st : RLState) (c0 : Int),
      st.lookup ip = some ⟨c0, R⟩ →
      (∀ t ∈ ts, t ≤ R) →
      (allowRun maxRequests window st ip ts).2 = expectedResults maxRequests R c0 ts ∧
        (allowRun maxRequests window st ip ts).1.lookup ip
          = some ⟨c0 + ts.length, R⟩ := by
  intro ts
  induction ts with
  | nil =>
    intro st c0 hst hts
    simpa [allowRun_nil, expectedResults] using hst
  | cons t ts ih =>
    intro st c0 hst hts
    have htR : t ≤ R := hts t (List.mem_cons_self t ts)
    have hts' : ∀ x ∈ ts, x ≤ R := fun x hx => hts x (List.mem_cons_of_mem t hx)
    have hnot : ¬ (R < t) := not_lt.mpr htR
    have hlk : (setEntry st ip (⟨c0 + 1, R⟩ : Client)).lookup ip = some ⟨c0 + 1, R⟩ :=
      lookup_setEntry_self st ip ⟨c0 + 1, R⟩
    by_cases hc : c0 + 1 > maxRequests
    · have hallow : allow maxRequests window st ip t
          = (setEntry st ip ⟨c0 + 1, R⟩, RLResult.limited (R - t)) := by
        simp [allow, hst, hnot, hc]
      obtain ⟨h1, h2⟩ := ih (setEntry st ip ⟨c0 + 1, R⟩) (c0 + 1) hlk hts'
      rw [allowRun_cons, hallow]
      constructor
      · simp [expectedResults, hc, h1]
      · rw [h2]
        simp only [List.length_cons, Option.some.injEq, Client.mk.injEq]
        exact ⟨by push_cast; ring, trivial⟩
    · have hallow : allow maxRequests window st ip t
          = (setEntry st ip ⟨c0 + 1, R⟩, RLResult.allowed) := by
        simp [allow, hst, hnot, hc]
      obtain ⟨h1, h2⟩ := ih (setEntry st ip ⟨c0 + 1, R⟩) (c0 + 1) hlk hts'
      rw [allowRun_cons, hallow]
      constructor
      · simp [expectedResults, hc, h1]
      · rw [h2]
        simp only [List.length_cons, Option.some.injEq, Client.mk.injEq]
        exact ⟨by push_cast; ring, trivial⟩

theorem expectedResults_getElem? (maxRequests R : Int) :
    ∀ (ts : List Int) (c0 : Int) (i : Nat),
      (expectedResults maxRequests R c0 ts)[i]?
        = (ts[i]?).map (fun t =>
            if c0 + (i : Int) + 1 > maxRequests then RLResult.limited (R - t)
            else RLResult.allowed) := by
  intro ts
  induction ts with
  | nil => intro c0 i; simp [expectedResults]
  | cons t ts ih =>
    intro c0 i
    cases i with
    | zero => simp [expectedResults]
    | succ i =>
      simp only [expectedResults, List.getElem?_cons_succ]
      rw [ih (c0 + 1) i]
      cases hts : ts[i]? with
      | none => rfl
      | some x =>
        simp only [Option.map_some']
        have hiff : (c0 + 1 + (i : Int) + 1 > maxRequests)
            ↔ (c0 + ((i + 1 : Nat) : Int) + 1 > maxRequests) := by
          push_cast
          constructor <;> intro hx <;> linarith
        by_cases hcond : c0 + 1 + (i : Int) + 1 > maxRequests
        · rw [if_pos hcond, if_pos (hiff.mp hcond)]
        · rw [if_neg hcond, if_neg (fun hx => hcond (hiff.mpr hx))]

/-- C2: starting with no window for the client, a burst t0 :: ts whose
later instants all land inside the window opened at t0 is admitted on
exactly its first maxRequests requests; every later request of the
burst is rejected with Retry-After (t0 + W) - now seconds, which is
nonnegative and non-increasing as the instants advance toward the
reset time; and the final per-client count equals the total number of
attempts, rejected ones included. -/
theorem rateLimit_burst (maxRequests window t0 : Int) (ts : List Int) (st0 : RLState)
    (ip : String)
    (hmax : 1 ≤ maxRequests)
    (hfresh : st0.lookup ip = none)
    (hwin : ∀ t ∈ ts, t ≤ t0 + window)
    (hmono : (t0 :: ts).Chain' (· ≤ ·)) :
    (∀ i : Nat,
        ((allowRun maxRequests window st0 ip (t0 :: ts)).2[i]? = some RLResult.allowed
          ↔ i < ts.length + 1 ∧ (i : Int) < maxRequests)) ∧
    (∀ (i : Nat) (r : Int),
        (allowRun maxRequests window st0 ip (t0 :: ts)).2[i]? = some (RLResult.limited r) →
        0 ≤ r ∧ ∃ t, (t0 :: ts)[i]? = some t ∧ r = (t0 + window) - t) ∧
    (∀ (i j : Nat) (ri rj : Int), i ≤ j →
        (allowRun maxRequests window st0 ip (t0 :: ts)).2[i]? = some (RLResult.limited ri) →
        (allowRun maxRequests window st0 ip (t0 :: ts)).2[j]? = some (RLResult.limited rj) →
        rj ≤ ri) ∧
    (allowRun maxRequests window st0 ip (t0 :: ts)).1.lookup ip
      = some ⟨(ts.length : Int) + 1, t0 + window⟩ := by
  set R := t0 + window with hR
  have hall0 : allow maxRequests window st0 ip t0
      = (setEntry st0 ip ⟨1, R⟩, RLResult.allowed) := by
    simp [allow, hfresh]
  have hlk1 : (setEntry st0 ip (⟨1, R⟩ : Client)).lookup ip = some ⟨1, R⟩ :=
    lookup_setEntry_self st0 ip ⟨1, R⟩
  obtain ⟨h1, h2⟩ := allowRun_inwindow maxRequests window ip R ts
      (setEntry st0 ip ⟨1, R⟩) 1 hlk1 hwin
  have hres : (allowRun maxRequests window st0 ip (t0 :: ts)).2
      = RLResult.allowed :: expectedResults maxRequests R 1 ts := by
    rw [allowRun_cons, hall0]
    simpa using h1
  have hstf : (allowRun maxRequests window st0 ip (t0 :: ts)).1
      = (allowRun maxRequests window (setEntry st0 ip ⟨1, R⟩) ip ts).1 := by
    rw [allowRun_cons, hall0]
  have hchar : ∀ (k : Nat) (rk : Int),
      (allowRun maxRequests window st0 ip (t0 :: ts)).2[k]? = some (RLResult.limited rk) →
      ∃ (m : Nat) (x : Int), k = m + 1 ∧ m < ts.length ∧ ts[m]? = some x ∧ rk = R - x := by
    intro k rk hk
    rw [hres] at hk
    cases k with
    | zero =>
      rw [List.getElem?_cons_zero] at hk
      exact RLResult.noConfusion (Option.some.inj hk)
    | succ m =>
      rw [List.getElem?_cons_succ, expectedResults_getElem? maxRequests R ts 1 m] at hk
      cases hts : ts[m]? with
      | none => rw [hts] at hk; exact Option.noConfusion hk
      | some x =>
        rw [hts, Option.map_some'] at hk
        have hmlen : m < ts.length := by
          by_contra hge
          push_neg at hge
          rw [List.getElem?_eq_none hge] at hts
          exact Option.noConfusion hts
        by_cases hcond : (1 : Int) + m + 1 > maxRequests
        · rw [if_pos hcond] at hk
          exact ⟨m, x, rfl, hmlen, hts, (RLResult.limited.inj (Option.some.inj hk)).symm⟩
        · rw [if_neg hcond] at hk
          exact RLResult.noConfusion (Option.some.inj hk)
  refine ⟨?_, ?_, ?_, ?_⟩
  · intro i
    rw [hres]
    cases i with
    | zero =>
      simp only [List.getElem?_cons_zero, Option.some.injEq]
      constructor
      · intro _
        exact ⟨Nat.succ_pos _, by exact_mod_cast hmax⟩
      · intro _
        trivial
    | succ i =>
      rw [List.getElem?_cons_succ, expectedResults_getElem? maxRequests R ts 1 i]
      cases hts : ts[i]? with
      | none =>
        have hlen : ts.length ≤ i := by
          by_contra hlt
          push_neg at hlt
          rw [List.getElem?_eq_getElem hlt] at hts
          exact Option.noConfusion hts
        rw [Option.map_none']
        constructor
        · intro hx
          exact Option.noConfusion hx
        · rintro ⟨hi, -⟩
          exact absurd hlen (by omega)
      | some x =>
        rw [Option.map_some']
        have hilen : i < ts.length := by
          by_contra hge
          push_neg at hge
          rw [List.getElem?_eq_none hge] at hts
          exact Option.noConfusion hts
        by_cases hcond : (1 : Int) + i + 1 > maxRequests
        · rw [if_pos hcond]
          constructor
          · intro hx
            exact RLResult.noConfusion (Option.some.inj hx)
          · rintro ⟨-, hilt⟩
            exfalso
            push_cast at hilt
            omega
        · rw [if_neg hcond]
          constructor
          · intro _
            refine ⟨by omega, ?_⟩
            push_cast
            omega
          · intro _
            rfl
  · intro i r hlim
    obtain ⟨m, x, rfl, hmlen, hts, hrx⟩ := hchar i r hlim
    have hxle : x ≤ R := hwin x (List.getElem?_mem hts)
    refine ⟨by omega, x, ?_, hrx⟩
    rw [List.getElem?_cons_succ]
    exact hts
  · intro i j ri rj hij hi hj
    obtain ⟨m, x, rfl, hmlen, htsm, hrx⟩ := hchar i ri hi
    obtain ⟨n, y, rfl, hnlen, htsn, hry⟩ := hchar j rj hj
    have hmn : m ≤ n := by omega
    rcases eq_or_lt_of_le hmn with heq | hlt
    · subst heq
      rw [htsm] at htsn
      have hxy : x = y := Option.some.inj htsn
      omega
    · have hpw : ts.Pairwise (· ≤ ·) := List.chain'_iff_pairwise.mp hmono.tail
      have hg : ts[m] ≤ ts[n] := List.pairwise_iff_getElem.mp hpw m n hmlen hnlen hlt
      have hxm : ts[m] = x :=
        Option.some.inj ((List.getElem?_eq_getElem hmlen).symm.trans htsm)
      have hyn : ts[n] = y :=
        Option.some.inj ((List.getElem?_eq_getElem hnlen).symm.trans htsn)
      rw [hxm, hyn] at hg
      omega
  · rw [hstf, h2]
    simp only [Option.some.injEq, Client.mk.injEq]
    exact ⟨by ring, trivial⟩

/-- C2 witness: limit 1, window 10 seconds, burst at instants 0, 3, 5 —
request 0 admitted, requests at 3 and 5 rejected with Retry-After 7
and 5, final count 3. -/
theorem rateLimit_burst_witness :
    (1 : Int) ≤ 1 ∧ (([] : RLState).lookup "a" = none) ∧
    (allowRun 1 10 [] "a" [0, 3, 5]).2[0]? = some RLResult.allowed ∧
    (allowRun 1 10 [] "a" [0, 3, 5]).1.lookup "a" = some ⟨3, 10⟩ ∧
    (allowRun 1 10 [] "a" [0, 3, 5]).2[1]? = some (RLResult.limited 7) ∧
    (allowRun 1 10 [] "a" [0, 3, 5]).2[2]? = some (RLResult.limited 5) :=
  ⟨le_refl 1, rfl,
    ((rateLimit_burst 1 10 0 [3, 5] [] "a" (by norm_num) rfl (by decide) (by norm_num [List.chain'_cons, List.chain'_singleton])).1
        0).mpr ⟨by norm_num, by norm_num⟩,
    (rateLimit_burst 1 10 0 [3, 5] [] "a" (by norm_num) rfl (by decide) (by norm_num [List.chain'_cons, List.chain'_singleton])).2.2.2,
    by decide, by decide⟩

end GoMicroservice
